import Mathlib

/-!
Verification development for the CexAMM two-asset rebalancing engine
(`cex_bivar.py`, `cex_model.py`).  Monetary quantities are modelled as
exact rationals; Python's `round(x, p)` (banker's rounding to `p`
decimal places) is modelled by `pyRoundTo`.  Python `range(a, b, -1)`
is `pyRange`, Python set difference followed by `sorted(·, reverse=True)`
is `pySetDiffDesc`, and Python's negative-index list access is `pyGet`.
Fallible code paths (KeyError, ZeroDivisionError) are modelled with
`Except`.
-/

namespace CexAMM

/-- Round-half-even to an integer, the rounding mode of Python's builtin
`round`. -/
def rhe (x : ℚ) : ℤ :=
  let f := ⌊x⌋
  let r := x - f
  if r < 1/2 then f
  else if 1/2 < r then f + 1
  else if Even f then f else f + 1

/-- Python's `round(x, p)` for `p` decimal digits. -/
def pyRoundTo (p : ℕ) (x : ℚ) : ℚ := (rhe (x * 10 ^ p) : ℚ) / 10 ^ p

lemma rhe_bounds (x : ℚ) : (⌊x⌋ : ℤ) ≤ rhe x ∧ rhe x ≤ ⌊x⌋ + 1 := by
  unfold rhe
  dsimp only
  split_ifs <;> omega

lemma rhe_intCast (n : ℤ) : rhe (n : ℚ) = n := by
  unfold rhe
  have h1 : ⌊(n : ℚ)⌋ = n := Int.floor_intCast n
  dsimp only
  rw [h1]
  have h2 : (n : ℚ) - n = 0 := by ring
  rw [h2]
  norm_num

lemma rhe_mono {x y : ℚ} (h : x ≤ y) : rhe x ≤ rhe y := by
  have hf : ⌊x⌋ ≤ ⌊y⌋ := Int.floor_le_floor h
  by_cases heq : ⌊x⌋ = ⌊y⌋
  · have hr : x - ⌊x⌋ ≤ y - ⌊y⌋ := by
      rw [heq]
      linarith
    unfold rhe
    dsimp only
    rw [heq]
    split_ifs <;> first | omega | linarith
  · have h1 : ⌊x⌋ + 1 ≤ ⌊y⌋ := by omega
    have h2 := rhe_bounds x
    have h3 := rhe_bounds y
    omega

lemma pyRoundTo_mono (p : ℕ) {x y : ℚ} (h : x ≤ y) :
    pyRoundTo p x ≤ pyRoundTo p y := by
  unfold pyRoundTo
  have hp : (0 : ℚ) < 10 ^ p := by positivity
  have hm : x * 10 ^ p ≤ y * 10 ^ p := by
    exact mul_le_mul_of_nonneg_right h (le_of_lt hp)
  have := rhe_mono hm
  exact div_le_div_of_nonneg_right (by exact_mod_cast this) hp.le

lemma pyRoundTo_idem (p : ℕ) (x : ℚ) :
    pyRoundTo p (pyRoundTo p x) = pyRoundTo p x := by
  unfold pyRoundTo
  have hp : (10 : ℚ) ^ p ≠ 0 := by positivity
  rw [div_mul_cancel₀ _ hp, rhe_intCast]

/-- Per-symbol precision and size limits, as extracted by `_query_broker`. -/
structure SymbolInfo where
  pricePrecision : ℕ
  quantityPrecision : ℕ
  minQty : ℚ
  maxQty : ℚ
  minPrice : ℚ
  maxPrice : ℚ
deriving DecidableEq

/-- `self.new_price` from `_second_lambda_build`:
`lambda bp, j, step: round(bp * pow(1 + step, j), pricePrecision)`. -/
def newPrice (si : SymbolInfo) (bp : ℚ) (j : ℤ) (step : ℚ) : ℚ :=
  pyRoundTo si.pricePrecision (bp * (1 + step) ^ j)

/-- `self.delta_qty` from `_second_lambda_build`. -/
def deltaQty (si : SymbolInfo) (bq step rate : ℚ) (j : ℤ) : ℚ :=
  pyRoundTo si.quantityPrecision
    (bq * (1 + step * rate) ^ (j - 1) * step * rate * (1 - rate) / (1 + step) ^ j)

/-- Python `range(start, stop, -1)`: the descending integers
`[start, start-1, …, stop+1]`. -/
def pyRange (start stop : ℤ) : List ℤ :=
  (List.range (start - stop).toNat).map (fun (k : ℕ) => start - (k : ℤ))

/-- The canonical ladder window built by `second_fresh_base`:
`list(range(depth, 0, -1)) + list(range(-1, -depth - 1, -1))`. -/
def canonIdxList (d : ℕ) : List ℤ :=
  pyRange d 0 ++ pyRange (-1) (-(d : ℤ) - 1)

/-- The mutable per-instance grid state of `Bivar` that `second_fresh_base`
and `second_fresh_idx_list` read and write. -/
structure LadderSt where
  basePrice : ℚ
  baseQty : ℚ
  idxList : List ℤ
  totalOrders : ℕ
deriving DecidableEq

/-- The window-shift computation of `second_fresh_idx_list` (the
`order_idxes` assignment, lines 353–364 of `cex_bivar.py`): compare
`sum(filled)` against `sum(idxList)/len(idxList)` and anchor the shifted
window at `filled[0]` (more-sell case) or `filled[-1]` (more-buy case). -/
def shiftWindow (d : ℕ) (idxList filled : List ℤ) : List ℤ :=
  if ((filled.sum : ℚ)) > (idxList.sum : ℚ) / (idxList.length : ℚ) then
    let s := filled.headI
    pyRange (s + d) s ++ pyRange (s - 1) (s - 1 - d)
  else if ((filled.sum : ℚ)) < (idxList.sum : ℚ) / (idxList.length : ℚ) then
    let s := (filled.getLast?).getD 0
    pyRange (s + d) s ++ pyRange (s - 1) (s - d - 1)
  else idxList

/-- Python `sorted(list(set(xs) - set(ys)), reverse=True)`. -/
def pySetDiffDesc (xs ys : List ℤ) : List ℤ :=
  List.insertionSort (· ≥ ·) (xs.dedup.filter (fun j => decide (j ∉ ys)))

/-- `second_fresh_idx_list(complete_order_idxes)`: returns the updated
grid state together with `(new_order_idxes, delete_order_idxes)`.
Mirrors the three branches on `len(complete_order_idxes)` and the
final `second_total_orders += len(new_order_idxes)`. -/
def secondFreshIdxList (d : ℕ) (st : LadderSt) (filled : List ℤ) :
    LadderSt × List ℤ × List ℤ :=
  if filled.length = 0 then (st, [], [])
  else if filled.length = 2 * d then
    ({ st with totalOrders := st.totalOrders + st.idxList.length },
     st.idxList, [])
  else
    let order_idxes := shiftWindow d st.idxList filled
    let cur := st.idxList.dedup.filter (fun j => decide (j ∉ filled))
    let newOrders := pySetDiffDesc order_idxes cur
    let deletes := pySetDiffDesc cur order_idxes
    ({ st with idxList := order_idxes,
               totalOrders := st.totalOrders + newOrders.length },
     newOrders, deletes)

/-- `second_fresh_base`: base price is the mid of the top of book,
base quantity the traded-asset total, and the index list is reset to the
canonical window. -/
def secondFreshBase (d : ℕ) (st : LadderSt) (bid ask acctQty : ℚ) : LadderSt :=
  { st with basePrice := (bid + ask) * (1/2),
            baseQty := acctQty,
            idxList := canonIdxList d }

/-- The controller's forced-reset branch (`__main__`, lines 432–436):
zero the order counter, refresh the base, then call
`second_fresh_idx_list(self.second_idx_list)`. -/
def controllerReset (d : ℕ) (st : LadderSt) (bid ask acctQty : ℚ) :
    LadderSt × List ℤ × List ℤ :=
  let st1 := secondFreshBase d { st with totalOrders := 0 } bid ask acctQty
  secondFreshIdxList d st1 st1.idxList

inductive Side | buy | sell
deriving DecidableEq

instance : Inhabited Side := ⟨Side.buy⟩

/-- `_get_steps` from `cex_model.py` (no truncation): chunk `num` into
`divmod`-sized pieces, append the rounded remainder when it exceeds
`minQty`, clamping it to `maxQty`.  Python raises `ZeroDivisionError`
when `step == 0`; theorems about this function assume `0 < step`. -/
def getStepsFull (si : SymbolInfo) (num step : ℚ) : List ℚ :=
  let a := ⌊num / step⌋
  let c := List.replicate a.toNat (pyRoundTo si.quantityPrecision step)
  let b := pyRoundTo si.quantityPrecision (num - a * step)
  if si.minQty < b then c ++ [if b ≤ si.maxQty then b else si.maxQty] else c

/-- `_get_steps` from `cex_bivar.py`: same construction, but returning
`c[0:1]` — at most the first chunk. -/
def getSteps (si : SymbolInfo) (num step : ℚ) : List ℚ :=
  let a := ⌊num / step⌋
  let c := List.replicate a.toNat (pyRoundTo si.quantityPrecision step)
  let b := pyRoundTo si.quantityPrecision (num - a * step)
  (if si.minQty < b then c ++ [if b ≤ si.maxQty then b else si.maxQty] else c).take 1

/-- The inputs `first_balance_symbol2usdt` reads from the instance and
the exchange snapshot. -/
structure BalCfg where
  ratio : ℚ
  ratioAb : ℚ
  totalAssets : ℚ
  firstStep : ℚ
  bid : ℚ
  ask : ℚ
  symQty : ℚ
  usdtQty : ℚ

/-- `first_balance_symbol2usdt`: choose a side from the ratio, price from
the top of book, the rebalancing quantity, and enqueue one intent per
chunk of `_get_steps` (price, `item / price`). -/
def firstBalanceIntents (si : SymbolInfo) (c : BalCfg) : List (Side × ℚ × ℚ) :=
  let side := if c.ratio < c.ratioAb then Side.buy else Side.sell
  let price := if side = Side.buy then c.bid else c.ask
  let quantity := |c.ratioAb * c.usdtQty - price * c.symQty| / (price * (1 + c.ratioAb))
  (getSteps si (price * quantity) (c.totalAssets * c.firstStep)).map
    (fun item => (side, price, item / price))

/-- One entry of the account `balances` list. -/
structure Balance where
  assetName : String
  total : ℚ
  free : ℚ
  locked : ℚ
deriving DecidableEq

/-- An asset entry after `check_account` appended the `*_usdt_price`
fields. -/
structure Position where
  assetName : String
  total : ℚ
  free : ℚ
  locked : ℚ
  totalUsd : ℚ
  freeUsd : ℚ
  lockedUsd : ℚ
deriving DecidableEq

/-- Errors that `check_account` / `update_ratio` can raise. -/
inductive AcctErr
  /-- the `KeyError` raised inside the first loop of `check_account` -/
  | missingAsset
  /-- the `KeyError` on `asset['total']` when a slot stayed an empty dict -/
  | keyErrorTotal
  /-- the `ZeroDivisionError` from `update_ratio`'s division -/
  | zeroDivision
deriving DecidableEq

/-- `_get_price_usdt`: hardcoded `1.0` for USDT, otherwise the external
ticker price given by the oracle `prices`. -/
def getPriceUsdt (prices : String → ℚ) (name : String) : ℚ :=
  if name.toUpper = "USDT" then 1 else prices name

/-- The synthetic zero USDT balance built in `check_account`'s second
loop (`# avoid missing USDT asset`). -/
def zeroUsdtBalance : Balance := ⟨"USDT", 0, 0, 0⟩

/-- Extend a balance with its `*_usdt_price` fields (lines 141–144). -/
def mkPosition (prices : String → ℚ) (b : Balance) : Position :=
  { assetName := b.assetName, total := b.total, free := b.free,
    locked := b.locked,
    totalUsd := b.total * getPriceUsdt prices b.assetName,
    freeUsd := b.free * getPriceUsdt prices b.assetName,
    lockedUsd := b.locked * getPriceUsdt prices b.assetName }

/-- `check_account`: the first loop breaks on a match but `raise`s on the
very first non-matching item, so it only succeeds when the traded asset
is the FIRST balance entry; the second loop falls back to a synthetic
zero USDT balance.  An empty balance list leaves `assets[0]` an empty
dict, so the later `asset['total']` access raises a `KeyError`. -/
def checkAccount (symName : String) (prices : String → ℚ)
    (balances : List Balance) : Except AcctErr (Position × Position) :=
  match balances with
  | [] => .error .keyErrorTotal
  | b :: _ =>
    if b.assetName = symName then
      let usdt := (balances.find? (fun x => x.assetName = "USDT")).getD
        zeroUsdtBalance
      .ok (mkPosition prices b, mkPosition prices usdt)
    else .error .missingAsset

/-- `update_ratio`: `total_usdt_price(A) / total_usdt_price(USDT)`;
Python raises `ZeroDivisionError` when the denominator is zero. -/
def updateRatio (symName : String) (prices : String → ℚ)
    (balances : List Balance) : Except AcctErr ℚ :=
  match checkAccount symName prices balances with
  | .error e => .error e
  | .ok (a, u) =>
    if u.totalUsd = 0 then .error .zeroDivision
    else .ok (a.totalUsd / u.totalUsd)

/-- One entry of the open-orders snapshot, as read by `is_best_price`. -/
structure OpenOrd where
  side : Side
  price : ℚ
  origQty : ℚ
deriving DecidableEq

instance : Inhabited OpenOrd := ⟨⟨Side.buy, 0, 0⟩⟩

/-- The top-of-book level `is_best_price` reads for the order's side. -/
def sideTop (bb ba : ℚ × ℚ) (o : OpenOrd) : ℚ × ℚ :=
  if o.side = Side.buy then bb else ba

/-- `is_best_price(order)`:
`(new_price == order_price) and (order_quantity != quantity)`. -/
def isBestPrice (bb ba : ℚ × ℚ) (o : OpenOrd) : Bool :=
  decide ((sideTop bb ba o).1 = o.price) && decide (o.origQty ≠ (sideTop bb ba o).2)

/-- The controller's Condition-1 replacement test for a non-empty order
list: `len(orders) > 1 or (not is_best_price(orders[0]))`. -/
def step1Replace (bb ba : ℚ × ℚ) (orders : List OpenOrd) : Bool :=
  decide (orders.length > 1) || !(isBestPrice bb ba orders.headI)

/-- The fill-detection match test of `second_get_now_order_idxes`
(lines 334–336): the RAW observed price is compared against
`round(new_price(...), pricePrecision)`. -/
def fillMatch (si : SymbolInfo) (bp step : ℚ) (j : ℤ) (hisPrc : ℚ) : Bool :=
  decide (hisPrc = pyRoundTo si.pricePrecision (newPrice si bp j step))

/-- The deletion match test of `_second_delete_orders` (line 278):
`float(history_order['price']) == float(round(price, pricePrecision))`
with `price = new_price(...)` from `_second_price_idx2info`. -/
def deleteMatch (si : SymbolInfo) (bp step : ℚ) (j : ℤ) (hisPrc : ℚ) : Bool :=
  decide (hisPrc = pyRoundTo si.pricePrecision (newPrice si bp j step))

/-- Python list indexing with negative indices counting from the end. -/
def pyGet {α : Type} [Inhabited α] (xs : List α) (k : ℤ) : α :=
  if k < 0 then xs.getD (xs.length - (-k).toNat) default
  else xs.getD k.toNat default

/-- The emission sequence of `_second_make_orders`: iterate over
`[[i, -i - 1] for i in range(n // 2)][::-1]` and enqueue the elements at
`idx1` then `idx2` for each pair. -/
def secondMakeOrders {α : Type} [Inhabited α] (xs : List α) : List α :=
  (((List.range (xs.length / 2)).map
      (fun (i : ℕ) => ((i : ℤ), -(i : ℤ) - 1))).reverse).flatMap
    (fun p => [pyGet xs p.1, pyGet xs p.2])

/-- The list positions touched by `_second_make_orders` on a list of
length `n`, innermost pair first. -/
def makeOrderPositions (n : ℕ) : List ℕ :=
  ((List.range (n / 2)).reverse).flatMap (fun i => [i, n - 1 - i])

lemma rhe_eq_of_lt_half {x : ℚ} {n : ℤ} (h1 : (n : ℚ) ≤ x)
    (h2 : x < (n : ℚ) + 1/2) : rhe x = n := by
  have hf : ⌊x⌋ = n := by
    apply Int.floor_eq_iff.mpr
    exact ⟨h1, by linarith⟩
  unfold rhe
  dsimp only
  rw [hf, if_pos (by linarith)]

lemma length_pyRange (a b : ℤ) : (pyRange a b).length = (a - b).toNat := by
  unfold pyRange
  rw [List.length_map, List.length_range]

lemma length_canonIdxList (d : ℕ) : (canonIdxList d).length = 2 * d := by
  simp [canonIdxList, length_pyRange]
  omega

lemma mem_pySetDiffDesc (xs ys : List ℤ) (j : ℤ) :
    j ∈ pySetDiffDesc xs ys ↔ j ∈ xs ∧ j ∉ ys := by
  unfold pySetDiffDesc
  rw [List.mem_insertionSort, List.mem_filter, List.mem_dedup]
  simp

/-- C10: for every list of `n` target order intents passed to
`_second_make_orders`, exactly `2 * (n / 2)` intents are enqueued and
submitted; the emission sequence is exactly the innermost-outward
interleaved pairs taken from the two ends of the list (positions `i` and
`n - 1 - i` for `i = n/2 - 1` down to `0`); and the middle position
`n / 2` is touched iff `n` is even and positive — in particular, when `n`
is odd the middle intent is never placed. -/
theorem grid_placement_interleave {α : Type} [Inhabited α] (xs : List α) (n : ℕ) :
    (secondMakeOrders xs).length = 2 * (xs.length / 2) ∧
    secondMakeOrders xs =
      (makeOrderPositions xs.length).map (fun k => xs.getD k default) ∧
    (n / 2 ∈ makeOrderPositions n ↔ n % 2 = 0 ∧ 0 < n) := by
  have hb : secondMakeOrders xs =
      (makeOrderPositions xs.length).map (fun k => xs.getD k default) := by
    unfold secondMakeOrders makeOrderPositions
    rw [← List.map_reverse, List.flatMap_map, List.map_flatMap]
    apply List.flatMap_congr
    intro i _
    unfold pyGet
    have h1 : ¬ ((i : ℤ) < 0) := by omega
    have h2 : ((i : ℤ)).toNat = i := Int.toNat_natCast i
    have h3 : (-(-(i : ℤ) - 1)).toNat = i + 1 := by omega
    have h4 : (-(i : ℤ) - 1) < 0 := by omega
    rw [if_neg h1, if_pos h4, h2, h3]
    have h5 : xs.length - (i + 1) = xs.length - 1 - i := by omega
    rw [h5]
    rfl
  refine ⟨?_, hb, ?_⟩
  · rw [hb, List.length_map]
    unfold makeOrderPositions
    rw [List.length_flatMap]
    have h6 : (List.map (List.length ∘ fun i => [i, xs.length - 1 - i])
        (List.range (xs.length / 2)).reverse) =
        List.replicate ((List.range (xs.length / 2)).reverse).length 2 := by
      apply List.eq_replicate_iff.mpr
      constructor
      · rw [List.length_map]
      · intro b hbm
        rw [List.mem_map] at hbm
        obtain ⟨c, _, hc⟩ := hbm
        simp [Function.comp] at hc
        omega
    rw [h6, List.sum_replicate, List.length_reverse, List.length_range, smul_eq_mul]
    omega
  · unfold makeOrderPositions
    simp only [List.mem_flatMap, List.mem_reverse, List.mem_range, List.mem_cons,
      List.mem_singleton, List.not_mem_nil, or_false]
    constructor
    · rintro ⟨i, hi, h | h⟩ <;> omega
    · rintro ⟨h1, h2⟩
      exact ⟨n / 2 - 1, by omega, Or.inr (by omega)⟩

/-- C2: the reconciliation diff of `second_fresh_idx_list` (lines
365–367) produces exactly `toPlace = new − old` and
`toCancel = old − new`, where `old = liveIndices − filled` is the
still-resting set and `new` the shifted window, leaving `old ∩ new`
untouched; the first conjunct states the set-difference law for the
underlying Python `set` subtraction for ALL finite index sets (hence in
particular `old = new` gives an empty diff and `old ∩ new = ∅` a full
replace). -/
theorem reconcile_diff_minimal (d : ℕ) (st : LadderSt) (filled : List ℤ) (j : ℤ)
    (h0 : filled.length ≠ 0) (h1 : filled.length ≠ 2 * d) :
    (∀ (xs ys : List ℤ) (i : ℤ), i ∈ pySetDiffDesc xs ys ↔ i ∈ xs ∧ i ∉ ys) ∧
    (secondFreshIdxList d st filled).2.1 =
      pySetDiffDesc (shiftWindow d st.idxList filled)
        (st.idxList.dedup.filter (fun x => decide (x ∉ filled))) ∧
    (secondFreshIdxList d st filled).2.2 =
      pySetDiffDesc (st.idxList.dedup.filter (fun x => decide (x ∉ filled)))
        (shiftWindow d st.idxList filled) ∧
    ((j ∈ (secondFreshIdxList d st filled).2.1) ↔
      (j ∈ shiftWindow d st.idxList filled ∧ ¬(j ∈ st.idxList ∧ j ∉ filled))) ∧
    ((j ∈ (secondFreshIdxList d st filled).2.2) ↔
      ((j ∈ st.idxList ∧ j ∉ filled) ∧ j ∉ shiftWindow d st.idxList filled)) ∧
    ¬((j ∈ st.idxList ∧ j ∉ filled) ∧ j ∈ shiftWindow d st.idxList filled ∧
      ((j ∈ (secondFreshIdxList d st filled).2.1) ∨
       (j ∈ (secondFreshIdxList d st filled).2.2))) := by
  have hcur : ∀ i : ℤ,
      (i ∈ st.idxList.dedup.filter (fun x => decide (x ∉ filled))) ↔
      (i ∈ st.idxList ∧ i ∉ filled) := by
    intro i
    rw [List.mem_filter, List.mem_dedup]
    simp
  have hsel : secondFreshIdxList d st filled =
      ({ st with idxList := shiftWindow d st.idxList filled,
                 totalOrders := st.totalOrders +
                   (pySetDiffDesc (shiftWindow d st.idxList filled)
                     (st.idxList.dedup.filter (fun x => decide (x ∉ filled)))).length },
       pySetDiffDesc (shiftWindow d st.idxList filled)
         (st.idxList.dedup.filter (fun x => decide (x ∉ filled))),
       pySetDiffDesc (st.idxList.dedup.filter (fun x => decide (x ∉ filled)))
         (shiftWindow d st.idxList filled)) := by
    unfold secondFreshIdxList
    rw [if_neg h0, if_neg h1]
  refine ⟨mem_pySetDiffDesc, by rw [hsel], by rw [hsel], ?_, ?_, ?_⟩
  · rw [hsel]
    dsimp only
    rw [mem_pySetDiffDesc, hcur j]
  · rw [hsel]
    dsimp only
    rw [mem_pySetDiffDesc, hcur j]
  · rw [hsel]
    dsimp only
    rw [mem_pySetDiffDesc, mem_pySetDiffDesc, hcur j]
    tauto

/-- Witness for C2 at the spec's Step-2 scenario: depth 5, canonical live
window, `filled = [5, 4]`, probe index `j = 3`. -/
theorem reconcile_diff_minimal_witness :
    (([5, 4] : List ℤ).length ≠ 0 ∧ ([5, 4] : List ℤ).length ≠ 2 * 5) ∧
    ((∀ (xs ys : List ℤ) (i : ℤ), i ∈ pySetDiffDesc xs ys ↔ i ∈ xs ∧ i ∉ ys) ∧
    (secondFreshIdxList 5 ⟨100, 50, canonIdxList 5, 0⟩ [5, 4]).2.1 =
      pySetDiffDesc (shiftWindow 5 (canonIdxList 5) [5, 4])
        ((canonIdxList 5).dedup.filter (fun x => decide (x ∉ ([5, 4] : List ℤ)))) ∧
    (secondFreshIdxList 5 ⟨100, 50, canonIdxList 5, 0⟩ [5, 4]).2.2 =
      pySetDiffDesc
        ((canonIdxList 5).dedup.filter (fun x => decide (x ∉ ([5, 4] : List ℤ))))
        (shiftWindow 5 (canonIdxList 5) [5, 4]) ∧
    (((3 : ℤ) ∈ (secondFreshIdxList 5 ⟨100, 50, canonIdxList 5, 0⟩ [5, 4]).2.1) ↔
      ((3 : ℤ) ∈ shiftWindow 5 (canonIdxList 5) [5, 4] ∧
        ¬((3 : ℤ) ∈ canonIdxList 5 ∧ (3 : ℤ) ∉ ([5, 4] : List ℤ)))) ∧
    (((3 : ℤ) ∈ (secondFreshIdxList 5 ⟨100, 50, canonIdxList 5, 0⟩ [5, 4]).2.2) ↔
      (((3 : ℤ) ∈ canonIdxList 5 ∧ (3 : ℤ) ∉ ([5, 4] : List ℤ)) ∧
        (3 : ℤ) ∉ shiftWindow 5 (canonIdxList 5) [5, 4])) ∧
    ¬(((3 : ℤ) ∈ canonIdxList 5 ∧ (3 : ℤ) ∉ ([5, 4] : List ℤ)) ∧
      (3 : ℤ) ∈ shiftWindow 5 (canonIdxList 5) [5, 4] ∧
      (((3 : ℤ) ∈ (secondFreshIdxList 5 ⟨100, 50, canonIdxList 5, 0⟩ [5, 4]).2.1) ∨
       ((3 : ℤ) ∈ (secondFreshIdxList 5 ⟨100, 50, canonIdxList 5, 0⟩ [5, 4]).2.2)))) :=
  ⟨⟨by decide, by decide⟩,
   reconcile_diff_minimal 5 ⟨100, 50, canonIdxList 5, 0⟩ [5, 4] 3
     (by decide) (by decide)⟩

/-- C1 (amended): when `sum(filled)` exceeds the mean of the live
indices, `second_fresh_idx_list` anchors the shifted window at
`complete_order_idxes[0]` — the FIRST element of the filled list, which
is its maximum since fill detection reports indices in the descending
order of the live window (not its minimum as the spec claims) — and the
new window is `[standard+depth … standard+1] ++ [standard-1 … standard-depth]`. -/
theorem grid_shift_up_anchor (d : ℕ) (st : LadderSt) (filled : List ℤ)
    (hne : filled ≠ []) (hsort : List.Sorted (· ≥ ·) filled)
    (hlen : filled.length ≠ 2 * d) (hpos : 0 < st.idxList.length)
    (hgt : st.idxList.sum < (st.idxList.length : ℤ) * filled.sum) :
    (∀ x ∈ filled, x ≤ filled.headI) ∧
    (secondFreshIdxList d st filled).1.idxList =
      pyRange (filled.headI + d) filled.headI ++
        pyRange (filled.headI - 1) (filled.headI - 1 - d) := by
  have hQ : ((filled.sum : ℚ)) > (st.idxList.sum : ℚ) / (st.idxList.length : ℚ) := by
    have hc : (0 : ℚ) < (st.idxList.length : ℚ) := by exact_mod_cast hpos
    rw [gt_iff_lt, div_lt_iff₀ hc, mul_comm]
    exact_mod_cast hgt
  have hw : shiftWindow d st.idxList filled =
      pyRange (filled.headI + d) filled.headI ++
        pyRange (filled.headI - 1) (filled.headI - 1 - d) := by
    unfold shiftWindow
    rw [if_pos hQ]
  constructor
  · cases filled with
    | nil => exact absurd rfl hne
    | cons a t =>
      intro x hx
      rcases List.mem_cons.mp hx with h | h
      · simp [h]
      · exact (List.rel_of_sorted_cons hsort) x h
  · have h0 : filled.length ≠ 0 := by
      intro h
      exact hne (List.length_eq_zero.mp h)
    unfold secondFreshIdxList
    rw [if_neg h0, if_neg hlen]
    dsimp only
    rw [hw]

/-- Witness for C1's amended theorem at the spec's Step-2 scenario. -/
theorem grid_shift_up_anchor_witness :
    (([5, 4] : List ℤ) ≠ [] ∧ List.Sorted (· ≥ ·) ([5, 4] : List ℤ) ∧
     ([5, 4] : List ℤ).length ≠ 2 * 5 ∧ 0 < (canonIdxList 5).length ∧
     (canonIdxList 5).sum < ((canonIdxList 5).length : ℤ) * ([5, 4] : List ℤ).sum) ∧
    ((∀ x ∈ ([5, 4] : List ℤ), x ≤ ([5, 4] : List ℤ).headI) ∧
    (secondFreshIdxList 5 ⟨100, 50, canonIdxList 5, 0⟩ [5, 4]).1.idxList =
      pyRange (([5, 4] : List ℤ).headI + 5) ([5, 4] : List ℤ).headI ++
        pyRange (([5, 4] : List ℤ).headI - 1) (([5, 4] : List ℤ).headI - 1 - 5)) :=
  ⟨⟨by decide, by decide, by decide, by decide, by decide⟩,
   grid_shift_up_anchor 5 ⟨100, 50, canonIdxList 5, 0⟩ [5, 4]
     (by decide) (by decide) (by decide) (by decide) (by decide)⟩

/-- C1 counterexample: at the spec's own scenario (depth 5, canonical
live window `{5,…,1,−1,…,−5}`, `filled = [5, 4]`, `sum(filled) = 9 > 0`)
the code produces the window `[10 … 6] ++ [4 … 0]` anchored at
`max(filled) = 5`, NOT the window `[9 … 5] ++ [3 … −1]` that the claimed
anchor `standard = min(filled) = 4` would give. -/
theorem grid_shift_up_anchor_cex :
    (secondFreshIdxList 5 ⟨100, 50, canonIdxList 5, 0⟩ [5, 4]).1.idxList =
      [10, 9, 8, 7, 6, 4, 3, 2, 1, 0] ∧
    (secondFreshIdxList 5 ⟨100, 50, canonIdxList 5, 0⟩ [5, 4]).1.idxList ≠
      [9, 8, 7, 6, 5, 3, 2, 1, 0, -1] := by
  have hQ : ((([5, 4] : List ℤ).sum : ℚ)) >
      ((canonIdxList 5).sum : ℚ) / ((canonIdxList 5).length : ℚ) := by
    have h1 : (canonIdxList 5).sum = 0 := by decide
    have h2 : (canonIdxList 5).length = 10 := by decide
    have h3 : ([5, 4] : List ℤ).sum = 9 := by decide
    rw [h1, h2, h3]
    norm_num
  have hw : shiftWindow 5 (canonIdxList 5) [5, 4] = [10, 9, 8, 7, 6, 4, 3, 2, 1, 0] := by
    unfold shiftWindow
    rw [if_pos hQ]
    decide
  have hr : (secondFreshIdxList 5 ⟨100, 50, canonIdxList 5, 0⟩ [5, 4]).1.idxList =
      shiftWindow 5 (canonIdxList 5) [5, 4] := by
    unfold secondFreshIdxList
    rw [if_neg (by decide), if_neg (by decide)]
  rw [hr, hw]
  exact ⟨rfl, by decide⟩

/-- C5 counterexample: with the canonical depth-5 window fully filled,
`second_fresh_idx_list` leaves the base price untouched (no freshly
sampled mid-price appears anywhere in its inputs), re-places the current
window, and INCREMENTS the order counter to 10 — it is not reset to
zero as the claim states. -/
theorem full_reset_counter_cex :
    (secondFreshIdxList 5 ⟨100, 50, canonIdxList 5, 0⟩ (canonIdxList 5)).1.totalOrders = 10 ∧
    (secondFreshIdxList 5 ⟨100, 50, canonIdxList 5, 0⟩ (canonIdxList 5)).1.totalOrders ≠ 0 ∧
    (secondFreshIdxList 5 ⟨100, 50, canonIdxList 5, 0⟩ (canonIdxList 5)).1.basePrice = 100 ∧
    (secondFreshIdxList 5 ⟨100, 50, canonIdxList 5, 0⟩ (canonIdxList 5)).2.1 =
      canonIdxList 5 := by
  have hsel : secondFreshIdxList 5 ⟨100, 50, canonIdxList 5, 0⟩ (canonIdxList 5) =
      (⟨100, 50, canonIdxList 5, 10⟩, canonIdxList 5, []) := by
    unfold secondFreshIdxList
    rw [if_neg (by decide), if_pos (by decide)]
    decide
  rw [hsel]
  exact ⟨rfl, by decide, rfl, rfl⟩

/-- C5 (amended): the canonical full reset — fresh mid-price, canonical
`[depth…1] ++ [-1…-depth]` window, counter zeroed then advanced by the
`2*depth` re-placed orders — is performed by the CONTROLLER's forced
reset branch (`controllerReset`), which is the branch actually taken
when all rungs are gone (zero open orders); at its end the counter holds
`2*depth`, the number of orders just placed, not zero. -/
theorem controller_reset_canonical (d : ℕ) (st : LadderSt) (bid ask q : ℚ) :
    (controllerReset d st bid ask q).1.idxList = canonIdxList d ∧
    (controllerReset d st bid ask q).1.basePrice = (bid + ask) * (1/2) ∧
    (controllerReset d st bid ask q).1.baseQty = q ∧
    (controllerReset d st bid ask q).1.totalOrders = 2 * d ∧
    (controllerReset d st bid ask q).2.1 = canonIdxList d ∧
    (controllerReset d st bid ask q).2.2 = [] := by
  unfold controllerReset secondFreshBase secondFreshIdxList
  dsimp only
  by_cases hd : d = 0
  · subst hd
    rw [if_pos (by decide)]
    exact ⟨rfl, rfl, rfl, rfl, rfl, rfl⟩
  · rw [if_neg (by rw [length_canonIdxList]; omega),
        if_pos (by rw [length_canonIdxList])]
    refine ⟨rfl, rfl, rfl, ?_, rfl, rfl⟩
    show 0 + (canonIdxList d).length = 2 * d
    rw [length_canonIdxList]
    omega

/-- C3: for an account snapshot containing only the traded asset,
`check_account` does synthesize a zero-balance USDT position (first four
conjuncts, confirming that half of the claim) — but the subsequent ratio
computation `update_ratio` performs `totalUsdA / 0.0`, which in Python
raises `ZeroDivisionError` (modelled as `.error .zeroDivision`) instead
of yielding "+infinity" and routing to the SELL branch as the claim
states. -/
theorem missing_quote_zero_division :
    checkAccount "GRIN" (fun _ => 2) [⟨"GRIN", 10, 8, 2⟩] =
      .ok (mkPosition (fun _ => 2) ⟨"GRIN", 10, 8, 2⟩,
           mkPosition (fun _ => 2) zeroUsdtBalance) ∧
    (mkPosition (fun _ => 2) zeroUsdtBalance).assetName = "USDT" ∧
    (mkPosition (fun _ => 2) zeroUsdtBalance).total = 0 ∧
    (mkPosition (fun _ => 2) zeroUsdtBalance).totalUsd = 0 ∧
    updateRatio "GRIN" (fun _ => 2) [⟨"GRIN", 10, 8, 2⟩] = .error .zeroDivision := by
  have hfind : (([⟨"GRIN", 10, 8, 2⟩] : List Balance).find?
      (fun x => x.assetName = "USDT")) = none := by
    simp [List.find?]
  have hzero : (mkPosition (fun _ => 2) zeroUsdtBalance).totalUsd = 0 := by
    simp [mkPosition, zeroUsdtBalance]
  refine ⟨?_, rfl, rfl, hzero, ?_⟩
  · unfold checkAccount
    rw [hfind]
    simp
  · unfold updateRatio checkAccount
    rw [hfind]
    simp [hzero]

/-- C4: `check_account` raises the missing-asset `KeyError` on the
balance list `[USDT, GRIN]` even though the traded asset "GRIN" IS
present (second conjunct) — the `raise` sits INSIDE the first loop body,
so the function fails whenever the traded asset is not the FIRST entry,
contradicting the claim that presence at any position suffices. -/
theorem missing_asset_error_first_entry_only :
    checkAccount "GRIN" (fun _ => 2) [⟨"USDT", 100, 100, 0⟩, ⟨"GRIN", 10, 8, 2⟩] =
      .error .missingAsset ∧
    "GRIN" ∈ ([⟨"USDT", 100, 100, 0⟩, ⟨"GRIN", 10, 8, 2⟩] : List Balance).map
        Balance.assetName := by
  constructor
  · unfold checkAccount
    simp
  · simp

/-- C6 (amended): for fixed `basePrice > 0` and `stepRate ≥ 0` the rung
price satisfies `price(j) = round(bp * (1+s)^j, pricePrecision)` exactly
and is monotone NON-DECREASING in `j`; the unrounded price is strictly
increasing when `stepRate > 0`, but the rounded price need not be (see
the counterexample). -/
theorem ladder_price_formula_monotone (si : SymbolInfo) (bp s : ℚ) (j k : ℤ)
    (hbp : 0 < bp) (hs : 0 ≤ s) (hjk : j ≤ k) :
    newPrice si bp j s = pyRoundTo si.pricePrecision (bp * (1 + s) ^ j) ∧
    newPrice si bp j s ≤ newPrice si bp k s ∧
    (0 < s → j < k → bp * (1 + s) ^ j < bp * (1 + s) ^ k) := by
  refine ⟨rfl, ?_, ?_⟩
  · apply pyRoundTo_mono
    apply mul_le_mul_of_nonneg_left _ hbp.le
    exact zpow_le_zpow_right₀ (by linarith) hjk
  · intro hs' hjk'
    apply mul_lt_mul_of_pos_left _ hbp
    exact zpow_lt_zpow_right₀ (by linarith) hjk'

/-- Witness for C6's amended theorem at `bp = 100`, `s = 1`,
`j = -2 ≤ k = 3`. -/
theorem ladder_price_formula_monotone_witness :
    ((0 : ℚ) < 100 ∧ (0 : ℚ) ≤ 1 ∧ (-2 : ℤ) ≤ 3) ∧
    (newPrice ⟨2, 2, 1, 1000, 0, 1000⟩ 100 (-2) 1 =
      pyRoundTo (⟨2, 2, 1, 1000, 0, 1000⟩ : SymbolInfo).pricePrecision
        (100 * (1 + 1) ^ (-2 : ℤ)) ∧
    newPrice ⟨2, 2, 1, 1000, 0, 1000⟩ 100 (-2) 1 ≤
      newPrice ⟨2, 2, 1, 1000, 0, 1000⟩ 100 3 1 ∧
    ((0 : ℚ) < 1 → (-2 : ℤ) < 3 →
      (100 : ℚ) * (1 + 1) ^ (-2 : ℤ) < 100 * (1 + 1) ^ (3 : ℤ))) :=
  ⟨⟨by decide, by decide, by decide⟩,
   ladder_price_formula_monotone ⟨2, 2, 1, 1000, 0, 1000⟩ 100 1 (-2) 3
     (by decide) (by decide) (by decide)⟩

/-- The symbol parameters of C6's counterexample: one decimal digit of
price precision. -/
def si6 : SymbolInfo := ⟨1, 1, 0, 1000, 0, 1000⟩

/-- C6 counterexample: with `basePrice = 1`, `stepRate = 0.01` and price
precision 1, rungs `j = 1` and `j = 2` both round to `1.0`, so
`price(j)` is NOT strictly increasing over `[-5, 5] \ {0}` as claimed. -/
theorem ladder_price_strict_cex :
    ¬ (∀ j k : ℤ, j ≠ 0 → k ≠ 0 → -5 ≤ j → j < k → k ≤ 5 →
        newPrice si6 1 j (1/100) < newPrice si6 1 k (1/100)) := by
  intro h
  have h12 := h 1 2 (by decide) (by decide) (by decide) (by decide) (by decide)
  have e1 : newPrice si6 1 1 (1/100) = 1 := by
    unfold newPrice si6 pyRoundTo
    have hx : (1 : ℚ) * (1 + 1/100) ^ (1 : ℤ) * 10 ^ 1 = 101/10 := by
      rw [zpow_one]; norm_num
    rw [hx, rhe_eq_of_lt_half (n := 10) (by norm_num) (by norm_num)]
    norm_num
  have e2 : newPrice si6 1 2 (1/100) = 1 := by
    unfold newPrice si6 pyRoundTo
    have hx : (1 : ℚ) * (1 + 1/100) ^ (2 : ℤ) * 10 ^ 1 = 10201/1000 := by
      norm_num
    rw [hx, rhe_eq_of_lt_half (n := 10) (by norm_num) (by norm_num)]
    norm_num
  rw [e1, e2] at h12
  exact lt_irrefl 1 h12

/-- C7: one `first_balance_symbol2usdt` call emits at most one order:
`cex_bivar`'s `_get_steps` is exactly the first chunk (`c[0:1]`) of the
full chunk list built by `cex_model`'s `_get_steps` (steps of the rounded
step size plus a remainder chunk that is dropped when it does not exceed
`minQty` and clamped to `maxQty` when above it), so every intent list has
length at most one. -/
theorem balance_step_single_chunk (si : SymbolInfo) (num step : ℚ)
    (h : 0 < step) :
    getSteps si num step = (getStepsFull si num step).take 1 ∧
    (getSteps si num step).length ≤ 1 ∧
    (∀ (si2 : SymbolInfo) (c : BalCfg), (firstBalanceIntents si2 c).length ≤ 1) ∧
    (pyRoundTo si.quantityPrecision (num - ⌊num / step⌋ * step) ≤ si.minQty →
      getStepsFull si num step =
        List.replicate (⌊num / step⌋).toNat (pyRoundTo si.quantityPrecision step)) ∧
    (si.minQty < pyRoundTo si.quantityPrecision (num - ⌊num / step⌋ * step) →
      si.maxQty < pyRoundTo si.quantityPrecision (num - ⌊num / step⌋ * step) →
      getStepsFull si num step =
        List.replicate (⌊num / step⌋).toNat (pyRoundTo si.quantityPrecision step) ++
          [si.maxQty]) := by
  have hlen : ∀ (si' : SymbolInfo) (n s : ℚ), (getSteps si' n s).length ≤ 1 := by
    intro si' n s
    unfold getSteps
    dsimp only
    rw [List.length_take]
    omega
  refine ⟨rfl, hlen si num step, ?_, ?_, ?_⟩
  · intro si2 c
    unfold firstBalanceIntents
    dsimp only
    rw [List.length_map]
    apply hlen
  · intro hb
    unfold getStepsFull
    dsimp only
    rw [if_neg (by exact not_lt.mpr hb)]
  · intro hb1 hb2
    unfold getStepsFull
    dsimp only
    rw [if_pos hb1, if_neg (by exact not_le.mpr hb2)]

/-- Witness for C7 at `num = 10`, `step = 3`. -/
theorem balance_step_single_chunk_witness :
    (0 : ℚ) < 3 ∧
    (getSteps ⟨2, 2, 1, 100, 0, 1000⟩ 10 3 =
      (getStepsFull ⟨2, 2, 1, 100, 0, 1000⟩ 10 3).take 1 ∧
    (getSteps ⟨2, 2, 1, 100, 0, 1000⟩ 10 3).length ≤ 1 ∧
    (∀ (si2 : SymbolInfo) (c : BalCfg), (firstBalanceIntents si2 c).length ≤ 1) ∧
    (pyRoundTo (⟨2, 2, 1, 100, 0, 1000⟩ : SymbolInfo).quantityPrecision
        (10 - ⌊(10 : ℚ) / 3⌋ * 3) ≤ (⟨2, 2, 1, 100, 0, 1000⟩ : SymbolInfo).minQty →
      getStepsFull ⟨2, 2, 1, 100, 0, 1000⟩ 10 3 =
        List.replicate (⌊(10 : ℚ) / 3⌋).toNat
          (pyRoundTo (⟨2, 2, 1, 100, 0, 1000⟩ : SymbolInfo).quantityPrecision 3)) ∧
    ((⟨2, 2, 1, 100, 0, 1000⟩ : SymbolInfo).minQty <
        pyRoundTo (⟨2, 2, 1, 100, 0, 1000⟩ : SymbolInfo).quantityPrecision
          (10 - ⌊(10 : ℚ) / 3⌋ * 3) →
      (⟨2, 2, 1, 100, 0, 1000⟩ : SymbolInfo).maxQty <
        pyRoundTo (⟨2, 2, 1, 100, 0, 1000⟩ : SymbolInfo).quantityPrecision
          (10 - ⌊(10 : ℚ) / 3⌋ * 3) →
      getStepsFull ⟨2, 2, 1, 100, 0, 1000⟩ 10 3 =
        List.replicate (⌊(10 : ℚ) / 3⌋).toNat
          (pyRoundTo (⟨2, 2, 1, 100, 0, 1000⟩ : SymbolInfo).quantityPrecision 3) ++
          [(⟨2, 2, 1, 100, 0, 1000⟩ : SymbolInfo).maxQty])) :=
  ⟨by decide, balance_step_single_chunk ⟨2, 2, 1, 100, 0, 1000⟩ 10 3 (by decide)⟩

/-- C8 (amended): in the balance regime with exactly one open order, the
controller cancels and replaces it iff the top-of-book price on its side
differs from the order's price OR the displayed top-of-book quantity
EQUALS the order's own quantity — `is_best_price` requires
`new_price == order_price and order_quantity != quantity`, so price
agreement alone does not protect the order. -/
theorem single_order_replace_iff (bb ba : ℚ × ℚ) (o : OpenOrd) :
    (step1Replace bb ba [o] = true ↔
      ((sideTop bb ba o).1 ≠ o.price ∨ o.origQty = (sideTop bb ba o).2)) ∧
    (step1Replace bb ba [o] = false ↔
      ((sideTop bb ba o).1 = o.price ∧ o.origQty ≠ (sideTop bb ba o).2)) := by
  constructor
  · simp [step1Replace, isBestPrice, List.headI]
  · simp [step1Replace, isBestPrice, List.headI]

/-- C8 counterexample: a single BUY order at price 1 qty 5 with the bid
top of book at exactly (1, 5) rests at the best price on its side, yet
the controller's condition still cancels and replaces it (because the
book quantity equals the order quantity), contradicting the claim that
such an order is left untouched. -/
theorem single_order_replace_cex :
    step1Replace (1, 5) (2, 3) [⟨Side.buy, 1, 5⟩] = true ∧
    (sideTop (1, 5) (2, 3) ⟨Side.buy, 1, 5⟩).1 = (⟨Side.buy, 1, 5⟩ : OpenOrd).price := by
  constructor
  · simp [step1Replace, isBestPrice, sideTop, List.headI]
  · simp [sideTop]

/-- C9 (amended): the match test used by fill detection and by
ladder-order deletion compares the RAW observed price for exact equality
against the computed rung price (itself already rounded to the symbol's
price precision); the two code sites use the identical test.  The
observed side is NOT rounded before the comparison. -/
theorem price_match_raw_observed (si : SymbolInfo) (bp s p : ℚ) (j : ℤ) :
    fillMatch si bp s j p = decide (p = newPrice si bp j s) ∧
    deleteMatch si bp s j p = fillMatch si bp s j p := by
  unfold fillMatch deleteMatch newPrice
  rw [pyRoundTo_idem]
  exact ⟨rfl, rfl⟩

/-- The symbol parameters of C9's counterexample: two decimal digits of
price precision. -/
def si9 : SymbolInfo := ⟨2, 2, 0, 1000, 0, 1000⟩

/-- C9 counterexample: with price precision 2, an observed price of
1.004 rounds to the same value as the rung price (both 1.00), so the
claimed both-sides-rounded test would match — but the code's raw
comparison `1.004 == 1.00` does not. -/
theorem raw_price_match_cex :
    fillMatch si9 1 0 1 (251/250) = false ∧
    pyRoundTo si9.pricePrecision (251/250) =
      pyRoundTo si9.pricePrecision (newPrice si9 1 1 0) := by
  have hnp : newPrice si9 1 1 0 = 1 := by
    unfold newPrice si9 pyRoundTo
    have hx : (1 : ℚ) * (1 + 0) ^ (1 : ℤ) * 10 ^ 2 = 100 := by
      rw [zpow_one]; norm_num
    rw [hx, show ((100 : ℚ)) = ((100 : ℤ) : ℚ) by norm_num, rhe_intCast]
    norm_num
  have hobs : pyRoundTo 2 (251/250) = 1 := by
    unfold pyRoundTo
    have hx : (251/250 : ℚ) * 10 ^ 2 = 502/5 := by norm_num
    rw [hx, rhe_eq_of_lt_half (n := 100) (by norm_num) (by norm_num)]
    norm_num
  constructor
  · unfold fillMatch
    rw [hnp]
    have h1 : pyRoundTo si9.pricePrecision 1 = 1 := by
      show pyRoundTo 2 1 = 1
      unfold pyRoundTo
      rw [show ((1 : ℚ) * 10 ^ 2) = ((100 : ℤ) : ℚ) by norm_num, rhe_intCast]
      norm_num
    rw [h1]
    simp only [decide_eq_false_iff_not]
    norm_num
  · rw [hnp]
    show pyRoundTo 2 (251/250) = pyRoundTo 2 1
    rw [hobs]
    unfold pyRoundTo
    rw [show ((1 : ℚ) * 10 ^ 2) = ((100 : ℤ) : ℚ) by norm_num, rhe_intCast]
    norm_num

end CexAMM
